import Mathlib

/-!
# Verification of the CParser allocator-generation pipeline

This development gives a shallow embedding, in Lean 4, of the core of the
CParser repository:

* `extractor.py` — `_ptr_depth`, `_type_to_str_revised`, and the three passes
  of `extract_structs` (prescan of aggregate identifiers, collection of
  aggregate definitions and their field lists, typedef processing);
* `allocator_gen.py` — `clean_key`, `ptr_depth`, `is_struct_type`,
  `make_body`, `generate_allocators`;
* `function_call_writer.py` — `generate_main_file`;
* `main.py` — the argument/compile-database prefix of `main` that decides the
  fatal paths.

Python dictionaries are embedded as association lists with insertion-order
semantics (an insert on an existing key updates in place, a new key is
appended).  Strings are Lean `String`s; character-level operations
(`str.strip`, `str.replace`, the regular expressions of the source) are
embedded as explicit `List Char` transformations.  The libclang declaration
tree is embedded as explicit lists of aggregate / typedef declaration records
together with an inductive type of clang `Type` values (`CType`) supporting
`get_canonical`, `get_pointee`, and `get_declaration` as used by the source.
-/

namespace CParser

/-! ## Association lists with Python-dict semantics -/

/-- Python-dict insertion on an association list: assigning to an existing key
updates the binding in place (keeping its position), assigning to a fresh key
appends it.  Mirrors `m[k] = v`. -/
def alistInsert {α β : Type} [DecidableEq α] : List (α × β) → α → β → List (α × β)
  | [], k, v => [(k, v)]
  | (a, b) :: rest, k, v =>
    if a = k then (a, v) :: rest else (a, b) :: alistInsert rest k v

/-- Python-dict lookup `m.get(k)` on an association list. -/
def alistLookup {α β : Type} [DecidableEq α] : List (α × β) → α → Option β
  | [], _ => none
  | (a, b) :: rest, k => if a = k then some b else alistLookup rest k

/-- Python `k in m` key-membership test. -/
def alistMem {α β : Type} [DecidableEq α] (m : List (α × β)) (k : α) : Bool :=
  (alistLookup m k).isSome

theorem alistLookup_insert_self {α β : Type} [DecidableEq α]
    (m : List (α × β)) (k : α) (v : β) :
    alistLookup (alistInsert m k v) k = some v := by
  induction m with
  | nil => simp [alistInsert, alistLookup]
  | cons hd tl ih =>
    obtain ⟨a, b⟩ := hd
    by_cases h : a = k
    · simp [alistInsert, alistLookup, h]
    · simp [alistInsert, alistLookup, h, ih]

theorem alistLookup_insert_ne {α β : Type} [DecidableEq α]
    (m : List (α × β)) (k k' : α) (v : β) (h : k ≠ k') :
    alistLookup (alistInsert m k' v) k = alistLookup m k := by
  induction m with
  | nil => simp [alistInsert, alistLookup, Ne.symm h]
  | cons hd tl ih =>
    obtain ⟨a, b⟩ := hd
    by_cases ha : a = k'
    · simp [alistInsert, alistLookup, ha, Ne.symm h]
    · by_cases hb : a = k
      · simp [alistInsert, alistLookup, ha, hb, h]
      · simp [alistInsert, alistLookup, ha, hb, ih]

/-! ## Character-level embeddings of the Python string operations -/

/-- `str.strip()`: remove leading and trailing whitespace. -/
def pyStrip (l : List Char) : List Char :=
  ((l.dropWhile Char.isWhitespace).reverse.dropWhile Char.isWhitespace).reverse

/-- Substring test `pat in s` (Python `in` on strings). -/
def containsSub (pat s : List Char) : Bool :=
  (List.range (s.length + 1)).any fun i => pat.isPrefixOf (s.drop i)

/-- `_star_re.sub('', key)` with `_star_re = re.compile(r'\*+$')`: remove the
trailing run of `*` characters. -/
def dropTrailingStars (l : List Char) : List Char :=
  (l.reverse.dropWhile (fun c => c = '*')).reverse

/-- `re.sub(r"\s*\*+$", "", s)` as used by `is_struct_type`: if the string
ends in a run of stars, remove that run together with the run of whitespace
immediately preceding it; otherwise leave the string unchanged. -/
def subStarSuffix (l : List Char) : List Char :=
  if l.reverse.head? = some '*' then
    ((l.reverse.dropWhile (fun c => c = '*')).dropWhile Char.isWhitespace).reverse
  else l

/-- `re.sub(r"\\s*\\*+$", "", s)` as written (with doubled backslashes) in
`make_body`: the doubled backslashes make the pattern match a literal
backslash, then a run of letters `s`, then a run of literal backslashes, at
the end of the string.  The leftmost such match (which necessarily extends to
the end of the string) is removed; a string containing no backslash is left
unchanged. -/
def matchesEscapedPat : List Char → Bool
  | '\\' :: rest => (rest.dropWhile (fun c => c = 's')).all (fun c => c = '\\')
  | _ => false

def reSubEscStars : List Char → List Char
  | [] => []
  | c :: cs => if matchesEscapedPat (c :: cs) then [] else c :: reSubEscStars cs

/-- `str.replace("const ", "")`: remove every (leftmost-first, non-overlapping)
occurrence of the six-character pattern `const␣`. -/
def replaceConst : List Char → List Char
  | 'c' :: 'o' :: 'n' :: 's' :: 't' :: ' ' :: rest => replaceConst rest
  | c :: rest => c :: replaceConst rest
  | [] => []

/-! ## `allocator_gen.py`: key sanitisation and type classification -/

/-- Field lists as produced by the extractor: `[(type_string, field_name)]`. -/
abbrev Fields := List (String × String)

/-- String-keyed map with Python-dict semantics. -/
abbrev Dict := List (String × Fields)

/-- `clean_key` from `allocator_gen.py`:
`key.strip().replace(' ', '_')` followed by `_star_re.sub('', key)`.
(The two lines removing the `union `/`struct ` prefix are commented out in the
source and therefore not part of the embedding.) -/
def clean_key (key : String) : String :=
  ⟨dropTrailingStars ((pyStrip key.data).map fun c => if c = ' ' then '_' else c)⟩

/-- `ptr_depth` from `allocator_gen.py`: `type_str.count("*")`. -/
def ptr_depth (typeStr : String) : Nat :=
  typeStr.data.count '*'

/-- `is_struct_type` from `allocator_gen.py`:
`base = re.sub(r"\s*\*+$", "", type_str).strip(); return base in struct_names`. -/
def is_struct_type (typeStr : String) (structNames : List String) : Bool :=
  structNames.contains ⟨pyStrip (subStarSuffix typeStr.data)⟩

/-! ## `allocator_gen.py`: `make_body` -/

/-- The local variable `base` of the `make_body` loop:
`base = re.sub(r"\\s*\\*+$", "", f_type).strip()` (the doubled-backslash
substitution, see `reSubEscStars`). -/
def mbBase (fType : String) : String :=
  ⟨pyStrip (reSubEscStars fType.data)⟩

/-- The lines `make_body` appends for one field `(f_type, f_name)`; the local
`depth` is `ptr_depth(f_type)` and `base` is `mbBase f_type`. -/
def make_body_field (structNames : List String) (fType fName : String) : List String :=
  if ptr_depth fType = 1 ∧ is_struct_type (mbBase fType) structNames then
    ["    out->" ++ fName ++ " = alloc_" ++ clean_key (mbBase fType) ++ "(d + 1, max_d);"]
  else if ptr_depth fType = 0 ∧ is_struct_type (mbBase fType) structNames then
    ["    out->" ++ fName ++ " = *alloc_" ++ clean_key (mbBase fType) ++ "(d + 1, max_d);"]
  else if ptr_depth fType = 1 ∧ ¬ containsSub "[".data fType.data ∧ ¬ containsSub "[".data fName.data then
    ["    out->" ++ fName ++ " = tis_alloc_safe(128);",
     "    tis_make_unknown(out->" ++ fName ++ ", 128);"]
  else
    []

/-- The line list built by `make_body`: the single opening guard
`if(d < max_d - 1) \x7b`, then the per-field lines, then the closing brace. -/
def make_body_lines (fields : Fields) (structNames : List String) : List String :=
  "if(d < max_d - 1) \x7b" ::
    (fields.flatMap fun p => make_body_field structNames p.1 p.2) ++ ["    \x7d"]

/-- `make_body` itself: `"\n".join(lines)`. -/
def make_body (fields : Fields) (structNames : List String) : String :=
  "\n".intercalate (make_body_lines fields structNames)

/-! ## `allocator_gen.py`: `generate_allocators` -/

/-- The `PRELUDE` string constant. -/
def PRELUDE : String :=
  "//#include <stddef.h>\n//extern void *tis_alloc_safe(size_t);\n//extern void  tis_make_unknown(void*, size_t);\n"

/-- `ALLOC_TPL` instantiated for a value-typed entry `(key, fields)`:
`ret_type` and `struct_type` are both `key + "*"`, the body is
`indent(make_body(...), "    ")`. -/
def alloc_def (key : String) (fields : Fields) (structNames : List String) : String :=
  let fname := clean_key key
  let structType := key ++ "*"
  let body := "\n".intercalate ((make_body_lines fields structNames).map (fun l => "    " ++ l))
  structType ++ " alloc_" ++ fname ++ "(int d, int max_d)\n\x7b\n    " ++
    structType ++ " out = (" ++ structType ++ ")tis_alloc_safe(sizeof(*out));\n" ++
    "    tis_make_unknown(out, sizeof(*out));\n" ++ body ++ "\n    return out;\n\x7d\n"

/-- The forward declaration emitted for a value-typed entry in iteration 0. -/
def alloc_decl (key : String) : String :=
  key ++ "* alloc_" ++ clean_key key ++ "(int d, int max_d);\n"

/-- One pointer-alias part.  `target_alias = next(k for k, v in name_map.items()
if v == fields)` is the first value entry with an identical field list;
`none` models the uncaught `StopIteration` when no entry matches.
`it` is the iteration index (0 = declaration, 1 = definition). -/
def ptr_part (nameMap : Dict) (it : Nat) (key : String) (fields : Fields) : Option String :=
  match nameMap.find? (fun kv => kv.2 == fields) with
  | none => none
  | some kv =>
    if it = 0 then
      some (key ++ " alloc_" ++ clean_key key ++ "(int d, int max_d);\n")
    else
      some (key ++ " alloc_" ++ clean_key key ++ "(int d, int max_d)\n\x7b\n    return alloc_" ++
        clean_key kv.1 ++ "(d, max_d);\n\x7d\n")

/-- Map a fallible emission over a list, failing as a whole on the first
failure (models the uncaught `StopIteration` aborting the loop). -/
def optionMapM {α β : Type} (f : α → Option β) : List α → Option (List β)
  | [] => some []
  | a :: t =>
    match f a, optionMapM f t with
    | some b, some r => some (b :: r)
    | _, _ => none

/-- The `parts` list built by `generate_allocators`: the prelude, then for
`iter = 0` the declarations of all value entries followed by all pointer
entries, then for `iter = 1` the definitions in the same order. -/
def generate_allocators_parts (nameMap ptrMap : Dict) : Option (List String) := do
  let structNames := nameMap.map (fun kv => kv.1)
  let it0p ← optionMapM (fun kv => ptr_part nameMap 0 kv.1 kv.2) ptrMap
  let it1p ← optionMapM (fun kv => ptr_part nameMap 1 kv.1 kv.2) ptrMap
  pure (PRELUDE ::
    (nameMap.map fun kv => alloc_decl kv.1) ++ it0p ++
    (nameMap.map fun kv => alloc_def kv.1 kv.2 structNames) ++ it1p)

/-- `generate_allocators`: `"\n".join(parts)`. -/
def generate_allocators (nameMap ptrMap : Dict) : Option String :=
  (generate_allocators_parts nameMap ptrMap).map (fun ps => "\n".intercalate ps)

/-! ## Runtime call model of an emitted allocator body

The emitted body (see `make_body_lines`) consists of one guard
`if(d < max_d - 1) \x7b` enclosing every per-field line.  The recursive lines
(first two branches of `make_body_field`) call `alloc_<callee>(d + 1, max_d)`.
`field_call` records, for one field, which allocator is called and at which
depth when the guard is taken; `body_calls` is empty when the guard fails. -/

def field_call (structNames : List String) (fType : String) (d : Int) :
    List (String × Int) :=
  if ptr_depth fType = 1 ∧ is_struct_type (mbBase fType) structNames then
    [(clean_key (mbBase fType), d + 1)]
  else if ptr_depth fType = 0 ∧ is_struct_type (mbBase fType) structNames then
    [(clean_key (mbBase fType), d + 1)]
  else []

def body_calls (fields : Fields) (structNames : List String) (d maxD : Int) :
    List (String × Int) :=
  if d < maxD - 1 then fields.flatMap (fun p => field_call structNames p.1 d) else []

/-! ## `extractor.py`: the clang type and declaration model

`CType` embeds the fragment of libclang `Type` values the source inspects:
pointers, arrays (the four array kinds are collapsed into one constructor,
as `_type_to_str_revised` treats them identically), records (carrying the
hash and spelling of their declaration cursor), typedefs (carrying the
typedef's spelling and underlying type), elaborated sugar, enums, and basic
types (carrying their spelling). -/

inductive CType where
  | pointer (pointee : CType)
  | carray (elem : CType)
  | record (declHash : Nat) (declSpelling : String)
  | typedefT (spelling : String) (underlying : CType)
  | elaborated (named : CType)
  | enumT (spelling : String)
  | basic (spelling : String)
deriving DecidableEq, Repr

/-- libclang `Type.get_canonical`: strip typedef and elaborated sugar
everywhere, keeping the pointer/array structure. -/
def getCanonical : CType → CType
  | .pointer p => .pointer (getCanonical p)
  | .carray e => .carray (getCanonical e)
  | .typedefT _ u => getCanonical u
  | .elaborated n => getCanonical n
  | .record h s => .record h s
  | .enumT s => .enumT s
  | .basic s => .basic s

theorem getCanonical_idem (t : CType) : getCanonical (getCanonical t) = getCanonical t := by
  induction t with
  | pointer p ih => simp [getCanonical, ih]
  | carray e ih => simp [getCanonical, ih]
  | typedefT s u ih => simpa [getCanonical] using ih
  | elaborated n ih => simpa [getCanonical] using ih
  | record h s => rfl
  | enumT s => rfl
  | basic s => rfl

/-- Auxiliary form of `_ptr_depth` on an already-canonical type: count the
leading pointer constructors and return the base. -/
def ptrDepthCanon : CType → Nat × CType
  | .pointer p => ((ptrDepthCanon p).1 + 1, (ptrDepthCanon p).2)
  | t => (0, t)

/-- `_ptr_depth` from `extractor.py`: the loop repeatedly takes
`get_canonical`, and while the canonical form is a pointer it increments the
depth and moves to the pointee; the final canonical non-pointer type is the
base.  Since `getCanonical` is idempotent and commutes with `pointer`
(see `ptr_depth_type_unfold`), the loop is equivalent to counting the pointer
constructors of the canonical form. -/
def ptr_depth_type (t : CType) : Nat × CType :=
  ptrDepthCanon (getCanonical t)

theorem getCanonical_of_canonical_pointer {t p : CType}
    (h : getCanonical t = .pointer p) : getCanonical p = p := by
  induction t with
  | pointer q ih =>
    simp only [getCanonical] at h
    cases h
    exact getCanonical_idem q
  | carray e ih => simp [getCanonical] at h
  | typedefT s u ih => exact ih (by simpa [getCanonical] using h)
  | elaborated n ih => exact ih (by simpa [getCanonical] using h)
  | record h s => simp [getCanonical] at h
  | enumT s => simp [getCanonical] at h
  | basic s => simp [getCanonical] at h

/-- A canonical form never starts with typedef sugar. -/
theorem getCanonical_ne_typedefT (t : CType) : ∀ s u, getCanonical t ≠ .typedefT s u := by
  induction t with
  | pointer p ih => intro s u; simp [getCanonical]
  | carray e ih => intro s u; simp [getCanonical]
  | typedefT s' u' ih => intro s u; simpa [getCanonical] using ih s u
  | elaborated n ih => intro s u; simpa [getCanonical] using ih s u
  | record h s' => intro s u; simp [getCanonical]
  | enumT s' => intro s u; simp [getCanonical]
  | basic s' => intro s u; simp [getCanonical]

/-- A canonical form never starts with elaborated sugar. -/
theorem getCanonical_ne_elaborated (t : CType) : ∀ n, getCanonical t ≠ .elaborated n := by
  induction t with
  | pointer p ih => intro n; simp [getCanonical]
  | carray e ih => intro n; simp [getCanonical]
  | typedefT s' u' ih => intro n; simpa [getCanonical] using ih n
  | elaborated n' ih => intro n; simpa [getCanonical] using ih n
  | record h s' => intro n; simp [getCanonical]
  | enumT s' => intro n; simp [getCanonical]
  | basic s' => intro n; simp [getCanonical]

/-- The loop recurrence of `_ptr_depth`: `ptr_depth_type` satisfies exactly
one iteration of the Python `while True` loop: take the canonical form; if it
is a pointer, recurse on the pointee with depth one higher; otherwise the
canonical form is the base at depth 0. -/
theorem ptr_depth_type_unfold (t : CType) :
    ptr_depth_type t =
      match getCanonical t with
      | .pointer p => ((ptr_depth_type p).1 + 1, (ptr_depth_type p).2)
      | c => (0, c) := by
  unfold ptr_depth_type
  cases h : getCanonical t with
  | pointer p =>
    have hp : getCanonical p = p := getCanonical_of_canonical_pointer h
    simp [ptrDepthCanon, hp]
  | carray e => simp [ptrDepthCanon]
  | record hh s => simp [ptrDepthCanon]
  | typedefT s u => exact absurd h (getCanonical_ne_typedefT t s u)
  | elaborated n => exact absurd h (getCanonical_ne_elaborated t n)
  | enumT s => simp [ptrDepthCanon]
  | basic s => simp [ptrDepthCanon]

/-- `_type_to_str_revised` from `extractor.py`.  `idMap` is
`struct_decl_hash_to_identifier`.  Note that for records the source always
emits the `struct` tag keyword, for unions as well (the comment in the source
acknowledges this: "Here, we just use 'struct' as per original logic"). -/
def typeToStr (idMap : List (Nat × String)) : CType → String
  | .pointer p => typeToStr idMap p ++ "*"
  | .carray e => typeToStr idMap e ++ "[]"
  | .record h sp =>
    let identifier :=
      match alistLookup idMap h with
      | some s => if s = "" then (if sp = "" then "unresolved_anon_" ++ toString h else sp) else s
      | none => if sp = "" then "unresolved_anon_" ++ toString h else sp
    "struct " ++ identifier
  | .typedefT sp _ => sp
  | .elaborated n => typeToStr idMap n
  | .enumT sp => if sp = "" then "enum <anonymous>" else "enum " ++ sp
  | .basic sp => sp

/-! ## The declaration tree

The three passes of `extract_structs` each perform one full recursive
traversal of the translation-unit cursor, acting only on cursors of one kind
(`STRUCT_DECL`/`UNION_DECL` for passes 1 and 2, `TYPEDEF_DECL` for pass 3).
A traversal is therefore embedded as a fold over the list of cursors of the
relevant kind in preorder. -/

/-- One field declaration child (`CursorKind.FIELD_DECL`) of an aggregate
cursor: its clang type and its spelling (empty for anonymous bit-fields). -/
structure FieldDecl where
  ftype : CType
  spelling : String
deriving DecidableEq, Repr

/-- One `STRUCT_DECL` or `UNION_DECL` cursor. -/
structure AggDecl where
  isUnion : Bool
  /-- The cursor spelling; `""` for an anonymous aggregate. -/
  spelling : String
  /-- The cursor hash. -/
  declHash : Nat
  /-- `cursor.is_definition()`. -/
  isDefinition : Bool
  /-- The `FIELD_DECL` children, in declaration order. -/
  fieldDecls : List FieldDecl
deriving DecidableEq, Repr

/-- One `TYPEDEF_DECL` cursor: `cursor.spelling` and `cursor.type`. -/
structure TypedefDecl where
  spelling : String
  ctype : CType
deriving DecidableEq, Repr

/-- A translation unit, flattened: all aggregate cursors and all typedef
cursors, each list in preorder traversal order. -/
structure TU where
  aggs : List AggDecl
  typedefs : List TypedefDecl
deriving DecidableEq, Repr

/-- Pass 1 (`prescan_struct_identifiers_recursive`): map each aggregate
declaration hash to its spelling, or to `anon_<hash>` when anonymous. -/
def prescanGo : List AggDecl → List (Nat × String) → List (Nat × String)
  | [], m => m
  | a :: rest, m =>
    prescanGo rest
      (alistInsert m a.declHash
        (if a.spelling = "" then "anon_" ++ toString a.declHash else a.spelling))

def prescanIds (aggs : List AggDecl) : List (Nat × String) :=
  prescanGo aggs []

/-- The identifier pass 2 uses for a defining aggregate cursor: the prescan
identifier if present, else the spelling, else `error_anon_<hash>`. -/
def identOf (idMap : List (Nat × String)) (a : AggDecl) : String :=
  match alistLookup idMap a.declHash with
  | some s => if s = "" then (if a.spelling = "" then "error_anon_" ++ toString a.declHash else a.spelling) else s
  | none => if a.spelling = "" then "error_anon_" ++ toString a.declHash else a.spelling

/-- The field list pass 2 records for a defining aggregate cursor: one
`(type_string, field_name)` pair per `FIELD_DECL` child, in order. -/
def fieldsOf (idMap : List (Nat × String)) (a : AggDecl) : Fields :=
  a.fieldDecls.map fun fd => (typeToStr idMap fd.ftype, fd.spelling)

/-- Pass 2 (`collect_struct_definitions_recursive`): for every defining
aggregate cursor, record its field list in `struct_fields_map` under its
identifier and, when the cursor has a spelling, in `name_to_struct` under
the key `"struct " + spelling` (the source uses the `struct` prefix for
unions as well). -/
def collectGo (idMap : List (Nat × String)) :
    List AggDecl → List (String × Fields) → Dict → List (String × Fields) × Dict
  | [], sfm, nm => (sfm, nm)
  | a :: rest, sfm, nm =>
    if a.isDefinition then
      collectGo idMap rest
        (alistInsert sfm (identOf idMap a) (fieldsOf idMap a))
        (if a.spelling = "" then nm
         else alistInsert nm ("struct " ++ a.spelling) (fieldsOf idMap a))
    else collectGo idMap rest sfm nm

def collectDefs (idMap : List (Nat × String)) (aggs : List AggDecl) :
    List (String × Fields) × Dict :=
  collectGo idMap aggs [] []

/-- The resolution step of pass 3 for one typedef: the ultimate canonical
base must be a record (`TypeKind.RECORD`), its declaration hash must have a
truthy prescan identifier (`if target_struct_identifier and ...`), and that
identifier must have a recorded field list in `struct_fields_map`; the result
pairs the pointer depth with the resolved field list. -/
def ptResolved (idMap : List (Nat × String)) (sfm : List (String × Fields))
    (td : TypedefDecl) : Option (Nat × Fields) :=
  match (ptr_depth_type td.ctype).2 with
  | .record h _ =>
    (match alistLookup idMap h with
     | some ident =>
       if ident = "" then none
       else
         (match alistLookup sfm ident with
          | some fields => some ((ptr_depth_type td.ctype).1, fields)
          | none => none)
     | none => none)
  | _ => none

/-- Pass 3 (`process_typedefs_recursive`): for every typedef, if it resolves
(see `ptResolved`), dispatch on its pointer depth: 0 inserts the alias into
`name_to_struct`, 1 into `pointer_to_struct`, ≥ 2 is dropped. -/
def processTypedefs (idMap : List (Nat × String)) (sfm : List (String × Fields)) :
    List TypedefDecl → Dict → Dict → Dict × Dict
  | [], nm, pm => (nm, pm)
  | td :: rest, nm, pm =>
    match ptResolved idMap sfm td with
    | some (d, fields) =>
      if d = 0 then processTypedefs idMap sfm rest (alistInsert nm td.spelling fields) pm
      else if d = 1 then processTypedefs idMap sfm rest nm (alistInsert pm td.spelling fields)
      else processTypedefs idMap sfm rest nm pm
    | none => processTypedefs idMap sfm rest nm pm

/-- `extract_structs`: run the three passes and return
`(name_to_struct, pointer_to_struct)`. -/
def extract_structs (tu : TU) : Dict × Dict :=
  let idMap := prescanIds tu.aggs
  let cd := collectDefs idMap tu.aggs
  processTypedefs idMap cd.1 tu.typedefs cd.2 []

/-! ## `function_call_writer.py`: `generate_main_file` -/

/-- `clean_type = var_type.replace('const ', '').strip()`. -/
def cleanType (varType : String) : String :=
  ⟨pyStrip (replaceConst varType.data)⟩

/-- The lines `generate_main_file` emits to declare and initialise one
parameter `(var_type, var_name)`.  Note the pointer branch: a pointer whose
sanitised name is a key of `pm` but not of `nm` falls through both the `if`
and the `elif` and emits nothing at all. -/
def param_init_lines (nm pm : Dict) (varType varName : String) : List String :=
  let ct := cleanType varType
  let structName := clean_key ct
  if containsSub "*".data ct.data then
    if alistMem nm structName then
      ["        " ++ ct ++ " " ++ varName ++ " = alloc_" ++ structName ++ "(0, 5);"]
    else if ¬ alistMem pm structName then
      ["        " ++ ct ++ " " ++ varName ++ " = malloc(32);",
       "        auto_make_unknown(" ++ varName ++ ", 32);"]
    else []
  else
    if alistMem nm structName then
      ["        " ++ ct ++ " " ++ varName ++ ";",
       "        " ++ varName ++ " = *alloc_" ++ structName ++ "(0, 5);"]
    else if alistMem pm structName then
      ["        " ++ ct ++ " " ++ varName ++ ";",
       "        " ++ varName ++ " = alloc_" ++ structName ++ "(0, 5);"]
    else if structName = "bool" then
      ["        " ++ ct ++ " " ++ varName ++ ";",
       "        " ++ varName ++ " = tis_nondet(0, 1);"]
    else
      ["        " ++ ct ++ " " ++ varName ++ ";",
       "        auto_make_unknown(&" ++ varName ++ ", sizeof(" ++ ct ++ "));"]

/-- The block of lines emitted for one function `(ret_type, func_name)` with
parameter list `params`; a function named `main` is skipped entirely
(`continue` before any output). -/
def func_block (nm pm : Dict) (funcName : String) (params : List (String × String)) :
    List String :=
  if funcName = "main" then []
  else
    "    if(rand())\x7b" ::
    (params.flatMap fun p => param_init_lines nm pm p.1 p.2) ++
    ["        " ++ funcName ++ "(" ++ ", ".intercalate (params.map fun p => p.2) ++ ");",
     "    \x7d\n"]

/-- `generate_main_file`: the `functions` table is an ordered map from
`(ret_type, func_name)` to the ordered parameter list. -/
def generate_main_file (functions : List ((String × String) × List (String × String)))
    (nm pm : Dict) : String :=
  "\n".intercalate
    ("int main(void) \x7b" ::
      (functions.flatMap fun fp => func_block nm pm fp.1.2 fp.2) ++
      ["    return 0;", "\x7d"])

/-! ## `main.py`: the fatal-path prefix of `main`

The embedding covers `main` from entry up to and including the read of the
compilation database, which is where both modelled fatal paths are decided:
the usage error (`len(sys.argv) < 3`) and the configuration error (the
`read_text`/`json.loads` of `compile_commands.json` raising).  Later stages
(parsing, generation) raise uncaught exceptions and are outside this prefix.
The filesystem is abstracted: `dbRead` is the outcome of
`compile_db_path.read_text()` + `json.loads`, and `resolvedDbPath` the
result of `Path(sys.argv[1]).resolve()`. -/

structure MainEnv where
  /-- `sys.argv`, program name included. -/
  argv : List String
  /-- `Path(sys.argv[1]).resolve().as_posix()` (opaque filesystem result). -/
  resolvedDbPath : String
  /-- Outcome of reading and JSON-decoding the compilation database:
  `.error msg` models a raised exception with message `msg`. -/
  dbRead : Except String Unit
deriving Repr

inductive MainOutcome where
  /-- `main` returned the given exit code after printing the given stdout and
  stderr lines. -/
  | fatal (exitCode : Nat) (stdoutLines stderrLines : List String)
  /-- `main` passed the compilation-database read with the given stdout and
  stderr lines printed so far. -/
  | continues (stdoutLines stderrLines : List String)
deriving Repr

/-- The `#include` lines `main` prints to stdout, one per `sys.argv[2:]`
entry, before the compilation database is read. -/
def includeLines (env : MainEnv) : List String :=
  (env.argv.drop 2).map fun s => "#include \"" ++ s ++ "\""

def main_prefix (env : MainEnv) : MainOutcome :=
  if env.argv.length < 3 then
    .fatal 1 []
      ["Usage: gen_allocators.py <compile_commands.json> <file1.c> [file2.c …]"]
  else
    match env.dbRead with
    | .error exc =>
      .fatal 1 (includeLines env)
        ["Error reading " ++ env.resolvedDbPath ++ ": " ++ exc]
    | .ok _ => .continues (includeLines env) []

/-! ## Helper lemmas -/

theorem head?_dropWhile_not {p : Char → Bool} :
    ∀ (l : List Char) (c : Char), (l.dropWhile p).head? = some c → p c = false := by
  intro l
  induction l with
  | nil => intro c h; simp [List.dropWhile] at h
  | cons a t ih =>
    intro c h
    by_cases hp : p a
    · rw [List.dropWhile_cons_of_pos hp] at h
      exact ih c h
    · rw [List.dropWhile_cons_of_neg hp] at h
      simp at h
      subst h
      simpa using hp

theorem mem_dropWhile_sub {p : Char → Bool} :
    ∀ (l : List Char) (c : Char), c ∈ l.dropWhile p → c ∈ l := by
  intro l
  induction l with
  | nil => intro c h; simp [List.dropWhile] at h
  | cons a t ih =>
    intro c h
    by_cases hp : p a
    · rw [List.dropWhile_cons_of_pos hp] at h
      exact List.mem_cons_of_mem a (ih c h)
    · rwa [List.dropWhile_cons_of_neg hp] at h

theorem mem_dropTrailingStars_sub {l : List Char} {c : Char}
    (h : c ∈ dropTrailingStars l) : c ∈ l := by
  unfold dropTrailingStars at h
  rw [List.mem_reverse] at h
  have := mem_dropWhile_sub _ _ h
  rwa [List.mem_reverse] at this

theorem getLast?_dropTrailingStars (l : List Char) :
    (dropTrailingStars l).getLast? ≠ some '*' := by
  unfold dropTrailingStars
  rw [List.getLast?_reverse]
  intro h
  have := head?_dropWhile_not _ _ h
  simp at this

/-! ## Claim C6 -/

/-- Counterexample to C6: `clean_key` does not remove the tag keyword (the
two removal lines in `allocator_gen.py` are commented out).  The sanitised
function-name suffix for the key `struct Foo` is `struct_Foo`, which contains
the tag keyword `struct`, so the allocator emitted for that key is
`alloc_struct_Foo`. -/
theorem clean_key_keeps_struct_keyword :
    clean_key "struct Foo" = "struct_Foo" ∧
    containsSub "struct".data (clean_key "struct Foo").data = true := by
  constructor
  · rfl
  · decide

/-- C6 (amended): for every map key, the sanitised function-name suffix is
obtained by trimming surrounding whitespace, replacing every internal space
with a single `_`, and trimming the trailing pointer markers — so the result
contains no space and does not end in `*` — but the tag keyword is kept:
the key `struct Foo` sanitises to `struct_Foo`. -/
theorem clean_key_sanitisation (key : String) :
    (∀ c ∈ (clean_key key).data, c ≠ ' ') ∧
    (clean_key key).data.getLast? ≠ some '*' ∧
    clean_key "struct Foo" = "struct_Foo" := by
  refine ⟨?_, getLast?_dropTrailingStars _, rfl⟩
  intro c hc
  have hmem : c ∈ (pyStrip key.data).map (fun c => if c = ' ' then '_' else c) :=
    mem_dropTrailingStars_sub hc
  rw [List.mem_map] at hmem
  obtain ⟨a, _, ha⟩ := hmem
  by_cases h : a = ' '
  · rw [if_pos h] at ha
    rw [← ha]
    decide
  · rw [if_neg h] at ha
    rw [← ha]
    exact h

/-! ## Claim C4 -/

/-- Counterexample to C4: the field `("int**", "p")` has pointer depth 2 ≥ 1,
its target is not a known aggregate, and it is not an array type, yet
`make_body` emits no initialisation for it whatsoever (the depth-≥-2 case
falls into the final "scalar" branch that emits nothing): the whole body is
the empty guard. -/
theorem make_body_skips_depth_two_pointer :
    1 ≤ ptr_depth "int**" ∧
    is_struct_type "int**" [] = false ∧
    containsSub "[".data "int**".data = false ∧
    make_body_field [] "int**" "p" = [] ∧
    make_body_lines [("int**", "p")] [] = ["if(d < max_d - 1) \x7b", "    \x7d"] := by
  refine ⟨by decide, by decide, by decide, by decide, ?_⟩
  rfl

/-- C4 (amended): in every allocator body emitted by `generate_allocators`,
each field whose type string has pointer depth exactly 1 (not ≥ 1) to a
target that is not a known aggregate, and whose type and name contain no
array bracket, is initialised by allocating a fixed-size 128-byte opaque
buffer, filling it with unspecified bytes, and storing the pointer into the
field; fields of pointer depth ≥ 2 are left with the baseline unknown fill. -/
theorem make_body_unknown_pointer_buffer (structNames : List String)
    (fType fName : String)
    (hdepth : ptr_depth fType = 1)
    (hunknown : is_struct_type (mbBase fType) structNames = false)
    (htype : containsSub "[".data fType.data = false)
    (hname : containsSub "[".data fName.data = false) :
    make_body_field structNames fType fName =
      ["    out->" ++ fName ++ " = tis_alloc_safe(128);",
       "    tis_make_unknown(out->" ++ fName ++ ", 128);"] := by
  unfold make_body_field
  simp only [hdepth, hunknown, htype, hname]
  simp

/-! ## Claim C2 -/

theorem make_body_field_starts_blank (structNames : List String) (fType fName l : String)
    (h : l ∈ make_body_field structNames fType fName) : l.data.head? = some ' ' := by
  have h1 : ("    out->" : String).data = ' ' :: ("   out->" : String).data := rfl
  have h2 : ("    tis_make_unknown(out->" : String).data
      = ' ' :: ("   tis_make_unknown(out->" : String).data := rfl
  unfold make_body_field at h
  split at h
  · simp only [List.mem_singleton] at h
    subst h
    simp [String.data_append, h1]
  · split at h
    · simp only [List.mem_singleton] at h
      subst h
      simp [String.data_append, h1]
    · split at h
      · simp only [List.mem_cons, List.mem_singleton] at h
        rcases h with h | h | h
        · subst h
          simp [String.data_append, h1]
        · subst h
          simp [String.data_append, h2]
        · simp at h
      · simp at h

/-- Every element of `body_calls` arises under the depth guard and carries
depth `d + 1`. -/
theorem body_calls_step {fields : Fields} {structNames : List String}
    {d maxD : Int} {c : String} {d' : Int}
    (h : (c, d') ∈ body_calls fields structNames d maxD) :
    d < maxD - 1 ∧ d' = d + 1 := by
  unfold body_calls at h
  split at h
  · rename_i hlt
    refine ⟨hlt, ?_⟩
    rw [List.mem_flatMap] at h
    obtain ⟨p, _, hp⟩ := h
    unfold field_call at hp
    split at hp
    · simp at hp
      exact hp.2
    · split at hp
      · simp at hp
        exact hp.2
      · simp at hp
  · simp at h

/-- A recorded call corresponds to a recursive line of the emitted body (the
pointer-field form or the by-value form), with argument `(d + 1, max_d)`. -/
theorem field_call_line {structNames : List String} {fType : String} (fName : String)
    {d : Int} {c : String} {d' : Int}
    (h : (c, d') ∈ field_call structNames fType d) :
    ("    out->" ++ fName ++ " = alloc_" ++ c ++ "(d + 1, max_d);")
        ∈ make_body_field structNames fType fName ∨
    ("    out->" ++ fName ++ " = *alloc_" ++ c ++ "(d + 1, max_d);")
        ∈ make_body_field structNames fType fName := by
  unfold field_call at h
  unfold make_body_field
  split at h
  · rename_i hcond
    simp at h
    rw [if_pos hcond]
    left
    rw [h.1]
    exact List.mem_singleton.mpr rfl
  · rename_i hcond
    split at h
    · rename_i hcond2
      simp at h
      rw [if_neg hcond, if_pos hcond2]
      right
      rw [h.1]
      exact List.mem_singleton.mpr rfl
    · simp at h

/-- C2: every body emitted by `make_body` consists of a single depth guard
`if(d < max_d - 1)` wrapping all per-field lines (the guard line occurs once,
at the head, and never among the field lines); every recursive call recorded
by the runtime model occurs under the guard and passes depth `d + 1` and is
one of the emitted recursive lines; once `d ≥ max_d - 1` the body performs no
calls at all; and no infinite chain of recursive allocator calls exists, for
any type graph (self-referential ones included). -/
theorem make_body_guard_and_termination (fields : Fields) (structNames : List String) :
    (∃ mid, make_body_lines fields structNames =
        "if(d < max_d - 1) \x7b" :: mid ++ ["    \x7d"] ∧
        "if(d < max_d - 1) \x7b" ∉ mid) ∧
    (∀ (d maxD : Int) (c : String) (d' : Int),
        (c, d') ∈ body_calls fields structNames d maxD →
          d < maxD - 1 ∧ d' = d + 1 ∧
          ∃ fn : String,
            ("    out->" ++ fn ++ " = alloc_" ++ c ++ "(d + 1, max_d);")
                ∈ make_body_lines fields structNames ∨
            ("    out->" ++ fn ++ " = *alloc_" ++ c ++ "(d + 1, max_d);")
                ∈ make_body_lines fields structNames) ∧
    (∀ (d maxD : Int), maxD - 1 ≤ d → body_calls fields structNames d maxD = []) ∧
    (∀ (maxD : Int) (dep : Nat → Int) (fl : Nat → Fields) (nms : Nat → List String),
        (∀ n, ∃ c, (c, dep (n + 1)) ∈ body_calls (fl n) (nms n) (dep n) maxD) → False) := by
  refine ⟨?_, ?_, ?_, ?_⟩
  · refine ⟨fields.flatMap fun p => make_body_field structNames p.1 p.2, rfl, ?_⟩
    intro hmem
    rw [List.mem_flatMap] at hmem
    obtain ⟨p, _, hp⟩ := hmem
    have := make_body_field_starts_blank structNames p.1 p.2 _ hp
    simp at this
  · intro d maxD c d' h
    obtain ⟨hlt, hd'⟩ := body_calls_step h
    refine ⟨hlt, hd', ?_⟩
    unfold body_calls at h
    rw [if_pos hlt] at h
    rw [List.mem_flatMap] at h
    obtain ⟨p, hpmem, hp⟩ := h
    refine ⟨p.2, ?_⟩
    have hline := field_call_line p.2 hp
    have hsub : ∀ l : String, l ∈ make_body_field structNames p.1 p.2 →
        l ∈ make_body_lines fields structNames := by
      intro l hl
      unfold make_body_lines
      refine List.mem_cons_of_mem _ (List.mem_append_left _ ?_)
      rw [List.mem_flatMap]
      exact ⟨p, hpmem, hl⟩
    rcases hline with hl | hl
    · exact Or.inl (hsub _ hl)
    · exact Or.inr (hsub _ hl)
  · intro d maxD hle
    unfold body_calls
    rw [if_neg (by omega)]
  · intro maxD dep fl nms hchain
    have hstep : ∀ n, dep n < maxD - 1 ∧ dep (n + 1) = dep n + 1 := by
      intro n
      obtain ⟨c, hc⟩ := hchain n
      exact body_calls_step hc
    have hlin : ∀ n : Nat, dep n = dep 0 + n := by
      intro n
      induction n with
      | zero => simp
      | succ k ih =>
        have := (hstep k).2
        rw [this, ih]
        push_cast
        ring
    have hbound := (hstep ((maxD - 1 - dep 0).toNat)).1
    rw [hlin ((maxD - 1 - dep 0).toNat)] at hbound
    omega

theorem make_body_guard_and_termination_witness :
    (("struct_Node", (1 : Int)) ∈
        body_calls [("struct Node*", "next")] ["struct Node"] 0 5) ∧
    (0 : Int) < 5 - 1 ∧ (1 : Int) = 0 + 1 := by
  have h : ("struct_Node", (1 : Int)) ∈
      body_calls [("struct Node*", "next")] ["struct Node"] 0 5 := by decide
  have h2 := (make_body_guard_and_termination [("struct Node*", "next")]
    ["struct Node"]).2.1 0 5 "struct_Node" 1 h
  exact ⟨h, h2.1, h2.2.1⟩

theorem make_body_unknown_pointer_buffer_witness :
    make_body_field ["struct A"] "char*" "s" =
      ["    out->" ++ "s" ++ " = tis_alloc_safe(128);",
       "    tis_make_unknown(out->" ++ "s" ++ ", 128);"] :=
  make_body_unknown_pointer_buffer ["struct A"] "char*" "s"
    (by decide) (by decide) (by decide) (by decide)

/-! ## Claim C3 -/

theorem optionMapM_some_of_forall {α β : Type} (f : α → Option β) :
    ∀ l : List α, (∀ a ∈ l, (f a).isSome) → ∃ l', optionMapM f l = some l' := by
  intro l
  induction l with
  | nil => intro _; exact ⟨[], rfl⟩
  | cons a t ih =>
    intro h
    obtain ⟨b, hb⟩ := Option.isSome_iff_exists.mp (h a (List.mem_cons_self a t))
    obtain ⟨l', hl'⟩ := ih (fun x hx => h x (List.mem_cons_of_mem a hx))
    exact ⟨b :: l', by simp [optionMapM, hb, hl']⟩

theorem mem_of_optionMapM {α β : Type} (f : α → Option β) :
    ∀ (l : List α) (l' : List β), optionMapM f l = some l' →
      ∀ a ∈ l, ∃ b, f a = some b ∧ b ∈ l' := by
  intro l
  induction l with
  | nil => intro l' _ a ha; simp at ha
  | cons x t ih =>
    intro l' hl a ha
    unfold optionMapM at hl
    cases hx : f x with
    | none => rw [hx] at hl; simp at hl
    | some b =>
      rw [hx] at hl
      cases ht : optionMapM f t with
      | none => rw [ht] at hl; simp at hl
      | some r =>
        rw [ht] at hl
        simp at hl
        rcases List.mem_cons.mp ha with rfl | hat
        · exact ⟨b, hx, by rw [← hl]; exact List.mem_cons_self b r⟩
        · obtain ⟨b', hb', hmem⟩ := ih r ht a hat
          exact ⟨b', hb', by rw [← hl]; exact List.mem_cons_of_mem b hmem⟩

/-- C3: for every entry `(key, fields)` of `pointer_to_struct` whose field
list equals the field list of some key of `name_to_struct`, the allocator
definition `generate_allocators` emits for `key` is exactly
`<key> alloc_<clean key>(int d, int max_d) \x7b return alloc_<clean K>(d, max_d); \x7d`
for a key `K` of `name_to_struct` with the same field list: a direct return
of a call to `K`'s allocator with the identical `(d, max_d)` arguments, with
no other statement in the body (so no allocation and no extra indirection).
The side condition requires every pointer entry to have a structurally equal
value entry; otherwise the Python raises `StopIteration` and emits nothing. -/
theorem ptr_alias_delegates (nameMap ptrMap : Dict) (key : String) (fields : Fields)
    (hmem : (key, fields) ∈ ptrMap)
    (hall : ∀ kv ∈ ptrMap, ∃ kv2 ∈ nameMap, kv2.2 = kv.2) :
    ∃ (K : String) (parts : List String),
      (K, fields) ∈ nameMap ∧
      generate_allocators_parts nameMap ptrMap = some parts ∧
      (key ++ " alloc_" ++ clean_key key ++ "(int d, int max_d)\n\x7b\n    return alloc_" ++
        clean_key K ++ "(d, max_d);\n\x7d\n") ∈ parts := by
  have hfindSome : ∀ kv ∈ ptrMap, (nameMap.find? (fun kv2 => kv2.2 == kv.2)).isSome := by
    intro kv hkv
    rw [List.find?_isSome]
    obtain ⟨kv2, hkv2, he⟩ := hall kv hkv
    exact ⟨kv2, hkv2, by simp [he]⟩
  have hppSome : ∀ (it : Nat), ∀ kv ∈ ptrMap, (ptr_part nameMap it kv.1 kv.2).isSome := by
    intro it kv hkv
    obtain ⟨kv0, hf⟩ : ∃ kv0, nameMap.find? (fun kv2 => kv2.2 == kv.2) = some kv0 :=
      Option.isSome_iff_exists.mp (hfindSome kv hkv)
    unfold ptr_part
    rw [hf]
    dsimp only
    split <;> simp
  obtain ⟨l0, hl0⟩ := optionMapM_some_of_forall _ ptrMap (hppSome 0)
  obtain ⟨l1, hl1⟩ := optionMapM_some_of_forall _ ptrMap (hppSome 1)
  obtain ⟨b, hb, hbmem⟩ := mem_of_optionMapM _ ptrMap l1 hl1 (key, fields) hmem
  cases hf : nameMap.find? (fun kv2 => kv2.2 == (key, fields).2) with
  | none =>
    have := hfindSome (key, fields) hmem
    rw [hf] at this
    simp at this
  | some kv0 =>
    have hkv0mem : kv0 ∈ nameMap := List.mem_of_find?_eq_some hf
    have hkv0eq : kv0.2 = fields := by
      have := List.find?_some hf
      simpa using this
    have hbval : b = key ++ " alloc_" ++ clean_key key ++
        "(int d, int max_d)\n\x7b\n    return alloc_" ++
        clean_key kv0.1 ++ "(d, max_d);\n\x7d\n" := by
      unfold ptr_part at hb
      rw [hf] at hb
      simp at hb
      exact hb.symm
    refine ⟨kv0.1, PRELUDE :: (nameMap.map fun kv => alloc_decl kv.1) ++ l0 ++
      (nameMap.map fun kv => alloc_def kv.1 kv.2 (nameMap.map fun kv => kv.1)) ++ l1,
      ?_, ?_, ?_⟩
    · have : kv0 = (kv0.1, fields) := by
        rw [← hkv0eq]
      rw [← this]
      exact hkv0mem
    · unfold generate_allocators_parts
      rw [hl0, hl1]
      rfl
    · rw [← hbval]
      exact List.mem_cons_of_mem _ (List.mem_append_right _ hbmem)

theorem ptr_alias_delegates_witness :
    ∃ (K : String) (parts : List String),
      (K, [("int", "k")]) ∈ [("struct A", [("int", "k")])] ∧
      generate_allocators_parts [("struct A", [("int", "k")])]
        [("pA", [("int", "k")])] = some parts ∧
      ("pA" ++ " alloc_" ++ clean_key "pA" ++
        "(int d, int max_d)\n\x7b\n    return alloc_" ++
        clean_key K ++ "(d, max_d);\n\x7d\n") ∈ parts :=
  ptr_alias_delegates [("struct A", [("int", "k")])] [("pA", [("int", "k")])]
    "pA" [("int", "k")] (by decide) (by decide)

/-! ## Claim C1 -/

/-- Typedefs whose spelling differs from `s` never touch the key `s` of
either map. -/
theorem processTypedefs_preserve (idMap : List (Nat × String)) (sfm : List (String × Fields)) :
    ∀ (tds : List TypedefDecl) (nm pm : Dict) (s : String),
      (∀ t ∈ tds, t.spelling ≠ s) →
      alistLookup (processTypedefs idMap sfm tds nm pm).1 s = alistLookup nm s ∧
      alistLookup (processTypedefs idMap sfm tds nm pm).2 s = alistLookup pm s := by
  intro tds
  induction tds with
  | nil => intro nm pm s _; exact ⟨rfl, rfl⟩
  | cons td rest ih =>
    intro nm pm s hns
    have htd : td.spelling ≠ s := hns td (List.mem_cons_self td rest)
    have hrest : ∀ t ∈ rest, t.spelling ≠ s := fun t ht => hns t (List.mem_cons_of_mem td ht)
    unfold processTypedefs
    cases hres : ptResolved idMap sfm td with
    | none => exact ih nm pm s hrest
    | some df =>
      obtain ⟨d, fields⟩ := df
      dsimp only
      by_cases h0 : d = 0
      · rw [if_pos h0]
        obtain ⟨h1, h2⟩ := ih (alistInsert nm td.spelling fields) pm s hrest
        exact ⟨h1.trans (alistLookup_insert_ne nm s td.spelling fields (Ne.symm htd)), h2⟩
      · rw [if_neg h0]
        by_cases h1 : d = 1
        · rw [if_pos h1]
          obtain ⟨ha, hb⟩ := ih nm (alistInsert pm td.spelling fields) s hrest
          exact ⟨ha, hb.trans (alistLookup_insert_ne pm s td.spelling fields (Ne.symm htd))⟩
        · rw [if_neg h1]
          exact ih nm pm s hrest

/-- The dispatch of pass 3: a uniquely named typedef that resolves at depth
`d` lands in `name_to_struct` iff `d = 0`, in `pointer_to_struct` iff
`d = 1`, and in neither iff `d ≥ 2`, relative to accumulators that do not yet
bind its name. -/
theorem processTypedefs_dispatch (idMap : List (Nat × String)) (sfm : List (String × Fields))
    (td : TypedefDecl) (d : Nat) (fields : Fields)
    (hres : ptResolved idMap sfm td = some (d, fields)) :
    ∀ (tds : List TypedefDecl) (nm pm : Dict),
      td ∈ tds →
      (tds.map (fun t => t.spelling)).count td.spelling = 1 →
      alistLookup nm td.spelling = none →
      alistLookup pm td.spelling = none →
      (d = 0 →
        alistLookup (processTypedefs idMap sfm tds nm pm).1 td.spelling = some fields ∧
        alistLookup (processTypedefs idMap sfm tds nm pm).2 td.spelling = none) ∧
      (d = 1 →
        alistLookup (processTypedefs idMap sfm tds nm pm).2 td.spelling = some fields ∧
        alistLookup (processTypedefs idMap sfm tds nm pm).1 td.spelling = none) ∧
      (2 ≤ d →
        alistLookup (processTypedefs idMap sfm tds nm pm).1 td.spelling = none ∧
        alistLookup (processTypedefs idMap sfm tds nm pm).2 td.spelling = none) := by
  intro tds
  induction tds with
  | nil => intro nm pm hmem _ _ _; simp at hmem
  | cons t rest ih =>
    intro nm pm hmem hcount hnm hpm
    by_cases hsp : t.spelling = td.spelling
    · have hrest0 : (rest.map (fun t => t.spelling)).count td.spelling = 0 := by
        rw [List.map_cons, List.count_cons] at hcount
        simp [hsp] at hcount
        exact hcount
      have hnotin : ∀ t' ∈ rest, t'.spelling ≠ td.spelling := by
        intro t' ht' he
        have : td.spelling ∈ rest.map (fun t => t.spelling) := by
          rw [← he]
          exact List.mem_map_of_mem _ ht'
        rw [← List.count_pos_iff] at this
        omega
      have htdt : td = t := by
        rcases List.mem_cons.mp hmem with hh | hh
        · exact hh
        · exact absurd rfl (hnotin td hh)
      subst htdt
      unfold processTypedefs
      rw [hres]
      dsimp only
      refine ⟨?_, ?_, ?_⟩
      · intro hd0
        rw [if_pos hd0]
        obtain ⟨ha, hb⟩ := processTypedefs_preserve idMap sfm rest
          (alistInsert nm td.spelling fields) pm td.spelling hnotin
        rw [ha, hb, alistLookup_insert_self]
        exact ⟨rfl, hpm⟩
      · intro hd1
        rw [if_neg (by omega), if_pos hd1]
        obtain ⟨ha, hb⟩ := processTypedefs_preserve idMap sfm rest
          nm (alistInsert pm td.spelling fields) td.spelling hnotin
        rw [ha, hb, alistLookup_insert_self]
        exact ⟨rfl, hnm⟩
      · intro hd2
        rw [if_neg (by omega), if_neg (by omega)]
        obtain ⟨ha, hb⟩ := processTypedefs_preserve idMap sfm rest nm pm td.spelling hnotin
        rw [ha, hb]
        exact ⟨hnm, hpm⟩
    · have hmem' : td ∈ rest := by
        rcases List.mem_cons.mp hmem with hh | hh
        · exact absurd (congrArg TypedefDecl.spelling hh).symm hsp
        · exact hh
      have hcount' : (rest.map (fun t => t.spelling)).count td.spelling = 1 := by
        rw [List.map_cons, List.count_cons] at hcount
        simpa [hsp] using hcount
      unfold processTypedefs
      cases hres' : ptResolved idMap sfm t with
      | none => exact ih nm pm hmem' hcount' hnm hpm
      | some df =>
        obtain ⟨d', fields'⟩ := df
        dsimp only
        by_cases h0 : d' = 0
        · rw [if_pos h0]
          exact ih (alistInsert nm t.spelling fields') pm hmem' hcount'
            ((alistLookup_insert_ne nm td.spelling t.spelling fields'
              (fun he => hsp he.symm)).trans hnm) hpm
        · rw [if_neg h0]
          by_cases h1 : d' = 1
          · rw [if_pos h1]
            exact ih nm (alistInsert pm t.spelling fields') hmem' hcount' hnm
              ((alistLookup_insert_ne pm td.spelling t.spelling fields'
                (fun he => hsp he.symm)).trans hpm)
          · rw [if_neg h1]
            exact ih nm pm hmem' hcount' hnm hpm

/-- C1: `extract_structs` partitions every resolvable typedef by its pointer
depth `d` to the aggregate: `d = 0` makes the alias a key of
`name_to_struct` bound to the aggregate's recorded field list (and not of
`pointer_to_struct`); `d = 1` makes it a key of `pointer_to_struct` bound to
that field list (and not of `name_to_struct`); `d ≥ 2` leaves it in neither
map.  Side conditions: the typedef's name occurs once among the typedefs and
does not collide with a pass-2 tag key (both automatic for well-formed C
input, where a typedef name is an identifier and tag keys contain a space). -/
theorem typedef_pointer_depth_partition (tu : TU) (td : TypedefDecl) (d : Nat)
    (h : Nat) (sp ident : String) (fields : Fields)
    (hmem : td ∈ tu.typedefs)
    (huniq : (tu.typedefs.map (fun t => t.spelling)).count td.spelling = 1)
    (hdepth : ptr_depth_type td.ctype = (d, .record h sp))
    (hid : alistLookup (prescanIds tu.aggs) h = some ident)
    (hne : ident ≠ "")
    (hsfm : alistLookup (collectDefs (prescanIds tu.aggs) tu.aggs).1 ident = some fields)
    (hnoclash : alistLookup (collectDefs (prescanIds tu.aggs) tu.aggs).2 td.spelling = none) :
    (d = 0 →
      alistLookup (extract_structs tu).1 td.spelling = some fields ∧
      alistLookup (extract_structs tu).2 td.spelling = none) ∧
    (d = 1 →
      alistLookup (extract_structs tu).2 td.spelling = some fields ∧
      alistLookup (extract_structs tu).1 td.spelling = none) ∧
    (2 ≤ d →
      alistLookup (extract_structs tu).1 td.spelling = none ∧
      alistLookup (extract_structs tu).2 td.spelling = none) := by
  have hres : ptResolved (prescanIds tu.aggs) (collectDefs (prescanIds tu.aggs) tu.aggs).1 td
      = some (d, fields) := by
    unfold ptResolved
    rw [hdepth]
    dsimp only
    rw [hid]
    dsimp only
    rw [if_neg (by simpa using hne)]
    rw [hsfm]
  exact processTypedefs_dispatch (prescanIds tu.aggs)
    (collectDefs (prescanIds tu.aggs) tu.aggs).1 td d fields hres tu.typedefs
    (collectDefs (prescanIds tu.aggs) tu.aggs).2 [] hmem huniq hnoclash rfl

/-- Concrete translation unit for the C1 witness: the double-pointer test
`struct X { int k; }; typedef struct X* pX; typedef struct X** ppX;`. -/
def tuC1 : TU :=
  { aggs := [ { isUnion := false, spelling := "X", declHash := 1, isDefinition := true,
                fieldDecls := [ { ftype := .basic "int", spelling := "k" } ] } ],
    typedefs := [ { spelling := "pX", ctype := .pointer (.elaborated (.record 1 "X")) },
                  { spelling := "ppX",
                    ctype := .pointer (.pointer (.elaborated (.record 1 "X"))) } ] }

theorem typedef_pointer_depth_partition_witness :
    (alistLookup (extract_structs tuC1).2 "pX" = some [("int", "k")] ∧
      alistLookup (extract_structs tuC1).1 "pX" = none) ∧
    (alistLookup (extract_structs tuC1).1 "ppX" = none ∧
      alistLookup (extract_structs tuC1).2 "ppX" = none) := by
  constructor
  · exact (typedef_pointer_depth_partition tuC1 tuC1.typedefs[0] 1 1 "X" "X" [("int", "k")]
      (by decide) (by decide) (by decide) (by decide) (by decide) (by decide)
      (by decide)).2.1 rfl
  · exact (typedef_pointer_depth_partition tuC1 tuC1.typedefs[1] 2 1 "X" "X" [("int", "k")]
      (by decide) (by decide) (by decide) (by decide) (by decide) (by decide)
      (by decide)).2.2 (by omega)

/-! ## Claim C8 -/

/-- The translation unit of spec property P3 and
`tests/test_pointer_alias_not_defined.py`:
`struct Foo; typedef struct Foo Foo; typedef struct Foo* pFoo;` — the struct
is forward-declared (not a definition), so pass 2 records no field list. -/
def tuC8 : TU :=
  { aggs := [ { isUnion := false, spelling := "Foo", declHash := 1, isDefinition := false,
                fieldDecls := [] } ],
    typedefs := [ { spelling := "Foo", ctype := .elaborated (.record 1 "Foo") },
                  { spelling := "pFoo", ctype := .pointer (.elaborated (.record 1 "Foo")) } ] }

/-- C8: with `struct Foo` never defined, `extract_structs` returns two empty
maps — neither the tag `struct Foo` nor the typedefs `Foo` / `pFoo` appears
in either map. -/
theorem unresolved_forward_typedefs_give_empty_maps :
    extract_structs tuC8 = ([], []) ∧
    alistLookup (extract_structs tuC8).1 "struct Foo" = none ∧
    alistLookup (extract_structs tuC8).1 "Foo" = none ∧
    alistLookup (extract_structs tuC8).2 "pFoo" = none :=
  ⟨rfl, rfl, rfl, rfl⟩

/-! ## Claim C7 -/

/-- The union of `tests/test_union.py`:
`union pthread_attr_t { long int __align; };` (field list simplified to the
`__align` member). -/
def tuC7 : TU :=
  { aggs := [ { isUnion := true, spelling := "pthread_attr_t", declHash := 7,
                isDefinition := true,
                fieldDecls := [ { ftype := .basic "long", spelling := "__align" } ] } ],
    typedefs := [] }

/-- C7 evaluated at the failing input: the input aggregate is a union, yet
`collect_struct_definitions_recursive` keys it in `name_to_struct` as
`struct pthread_attr_t` (line 206 of `extractor.py` always uses the `struct `
prefix), and the key `union pthread_attr_t` — which the spec and the
repository's own test `tests/test_union.py` require — is absent. -/
theorem union_keyed_with_struct_tag :
    tuC7.aggs.all (fun a => a.isUnion) = true ∧
    alistLookup (extract_structs tuC7).1 "struct pthread_attr_t"
      = some [("long", "__align")] ∧
    alistLookup (extract_structs tuC7).1 "union pthread_attr_t" = none :=
  ⟨rfl, rfl, rfl⟩

/-! ## Claim C5 -/

/-- The bit-field struct of `tests/test_alloc_bitfields.py`, whose third
field is an unnamed bit-field (`unsigned int : 2;`), which libclang exposes
as a `FIELD_DECL` with empty spelling. -/
def aggC5 : AggDecl :=
  { isUnion := false, spelling := "BitFieldStruct", declHash := 9, isDefinition := true,
    fieldDecls := [ { ftype := .basic "unsigned int", spelling := "flags" },
                    { ftype := .basic "unsigned int", spelling := "mode" },
                    { ftype := .basic "unsigned int", spelling := "" },
                    { ftype := .basic "unsigned int", spelling := "status" } ] }

def tuC5 : TU := { aggs := [aggC5], typedefs := [] }

/-- Counterexample to C5: the recorded field list for `struct BitFieldStruct`
contains the entry `("unsigned int", "")` — the anonymous bit-field is
recorded, not dropped (the loop at lines 191-197 of `extractor.py` appends
every `FIELD_DECL` child unconditionally). -/
theorem anonymous_field_is_recorded :
    alistLookup (extract_structs tuC5).1 "struct BitFieldStruct" =
      some [("unsigned int", "flags"), ("unsigned int", "mode"),
            ("unsigned int", ""), ("unsigned int", "status")] ∧
    ("unsigned int", "") ∈ [("unsigned int", "flags"), ("unsigned int", "mode"),
            ("unsigned int", ""), ("unsigned int", "status")] :=
  ⟨rfl, by decide⟩

/-- Pass 2 leaves the key `s` of `name_to_struct` untouched when no named
definition among `aggs` owns it. -/
theorem collectGo_nm_preserve (idMap : List (Nat × String)) :
    ∀ (aggs : List AggDecl) (sfm : List (String × Fields)) (nm : Dict) (s : String),
      (∀ a ∈ aggs, a.isDefinition = true → a.spelling ≠ "" → "struct " ++ a.spelling ≠ s) →
      alistLookup (collectGo idMap aggs sfm nm).2 s = alistLookup nm s := by
  intro aggs
  induction aggs with
  | nil => intro sfm nm s _; rfl
  | cons a rest ih =>
    intro sfm nm s hns
    have hrest : ∀ x ∈ rest, x.isDefinition = true → x.spelling ≠ "" →
        "struct " ++ x.spelling ≠ s :=
      fun x hx => hns x (List.mem_cons_of_mem a hx)
    unfold collectGo
    by_cases hd : a.isDefinition = true
    · rw [if_pos hd]
      by_cases hsp : a.spelling = ""
      · rw [if_pos hsp]
        exact ih _ _ _ hrest
      · rw [if_neg hsp]
        rw [ih _ _ _ hrest]
        exact alistLookup_insert_ne nm s ("struct " ++ a.spelling) _
          (Ne.symm (hns a (List.mem_cons_self a rest) hd hsp))
    · rw [if_neg hd]
      exact ih _ _ _ hrest

theorem string_append_left_cancel {a b c : String} (h : a ++ b = a ++ c) : b = c := by
  have h' := congrArg String.data h
  rw [String.data_append, String.data_append] at h'
  cases b
  cases c
  exact congrArg String.mk (List.append_cancel_left h')

/-- An aggregate cursor that pass 2 records under a tag key: a definition
with a nonempty spelling. -/
def namedDef (x : AggDecl) : Bool :=
  x.isDefinition && !(x.spelling == "")

/-- Pass 2 records, for a uniquely named definition, exactly its ordered
`FIELD_DECL` children under the tag key — names preserved, nothing dropped. -/
theorem collectGo_nm_of_mem (idMap : List (Nat × String)) :
    ∀ (aggs : List AggDecl) (sfm : List (String × Fields)) (nm : Dict) (a : AggDecl),
      a ∈ aggs → a.isDefinition = true → a.spelling ≠ "" →
      ((aggs.filter namedDef).map (fun x => x.spelling)).count a.spelling = 1 →
      alistLookup (collectGo idMap aggs sfm nm).2 ("struct " ++ a.spelling)
        = some (fieldsOf idMap a) := by
  intro aggs
  induction aggs with
  | nil => intro sfm nm a ha; simp at ha
  | cons x rest ih =>
    intro sfm nm a hmem hdef hsp hcount
    by_cases hx : namedDef x = true
    · rw [List.filter_cons_of_pos hx, List.map_cons, List.count_cons] at hcount
      by_cases hxa : x.spelling = a.spelling
      · have hrest0 : ((rest.filter namedDef).map
            (fun y => y.spelling)).count a.spelling = 0 := by
          simp [hxa] at hcount
          exact hcount
        have hnotin : ∀ y ∈ rest, y.isDefinition = true → y.spelling ≠ "" →
            "struct " ++ y.spelling ≠ "struct " ++ a.spelling := by
          intro y hy hyd hys he
          have hysp : y.spelling = a.spelling := string_append_left_cancel he
          have : a.spelling ∈ (rest.filter namedDef).map (fun z => z.spelling) := by
            rw [← hysp]
            exact List.mem_map_of_mem _
              (List.mem_filter.mpr ⟨hy, by simp [namedDef, hyd, hys]⟩)
          rw [← List.count_pos_iff] at this
          omega
        have haeq : a = x := by
          rcases List.mem_cons.mp hmem with hh | hh
          · exact hh
          · exact absurd rfl (hnotin a hh hdef hsp)
        subst haeq
        unfold collectGo
        rw [if_pos hdef, if_neg hsp]
        rw [collectGo_nm_preserve idMap rest _ _ _ hnotin]
        exact alistLookup_insert_self nm ("struct " ++ a.spelling) (fieldsOf idMap a)
      · have hmem' : a ∈ rest := by
          rcases List.mem_cons.mp hmem with hh | hh
          · exact absurd (congrArg AggDecl.spelling hh).symm hxa
          · exact hh
        have hcount' : ((rest.filter namedDef).map
            (fun y => y.spelling)).count a.spelling = 1 := by
          simpa [hxa] using hcount
        have hxd : x.isDefinition = true := by
          rcases Bool.and_eq_true_iff.mp hx with ⟨h1, _⟩
          exact h1
        unfold collectGo
        rw [if_pos hxd]
        exact ih _ _ a hmem' hdef hsp hcount'
    · have hmem' : a ∈ rest := by
        rcases List.mem_cons.mp hmem with hh | hh
        · subst hh
          exact absurd (by simp [namedDef, hdef, hsp]) hx
        · exact hh
      rw [List.filter_cons_of_neg hx] at hcount
      unfold collectGo
      by_cases hxd : x.isDefinition = true
      · rw [if_pos hxd]
        have hxsp : x.spelling = "" := by
          by_cases hq : x.spelling = ""
          · exact hq
          · exact absurd (by simp [namedDef, hxd, hq]) hx
        rw [if_pos hxsp]
        exact ih _ _ a hmem' hdef hsp hcount
      · rw [if_neg hxd]
        exact ih _ _ a hmem' hdef hsp hcount

/-- C5 (amended): the ordered field list `extract_structs` records for a
defined, tagged aggregate is exactly its `FIELD_DECL` children in
declaration order, each as `(type_string, field_name)` with the name
preserved — field declarations with no name (anonymous bit-field padding)
are recorded as entries with an empty field name, not dropped. -/
theorem fields_recorded_including_anonymous (tu : TU) (a : AggDecl)
    (hmem : a ∈ tu.aggs) (hdef : a.isDefinition = true) (hsp : a.spelling ≠ "")
    (huniq : ((tu.aggs.filter namedDef).map
        (fun x => x.spelling)).count a.spelling = 1)
    (hnotd : ∀ t ∈ tu.typedefs, t.spelling ≠ "struct " ++ a.spelling) :
    alistLookup (extract_structs tu).1 ("struct " ++ a.spelling) =
      some (a.fieldDecls.map fun fd =>
        (typeToStr (prescanIds tu.aggs) fd.ftype, fd.spelling)) := by
  have h2 := collectGo_nm_of_mem (prescanIds tu.aggs) tu.aggs [] [] a hmem hdef hsp huniq
  have h3 := (processTypedefs_preserve (prescanIds tu.aggs)
      (collectDefs (prescanIds tu.aggs) tu.aggs).1 tu.typedefs
      (collectDefs (prescanIds tu.aggs) tu.aggs).2 [] ("struct " ++ a.spelling) hnotd).1
  unfold extract_structs
  rw [h3]
  exact h2

theorem fields_recorded_including_anonymous_witness :
    alistLookup (extract_structs tuC5).1 ("struct " ++ "BitFieldStruct") =
      some [("unsigned int", "flags"), ("unsigned int", "mode"),
            ("unsigned int", ""), ("unsigned int", "status")] := by
  have h := fields_recorded_including_anonymous tuC5 aggC5 (by decide) rfl
    (by decide) (by decide) (by decide)
  exact h

/-! ## Claim C9 -/

/-- Counterexample to C9: with a well-formed argument list but an unreadable
compilation database, `main` exits 1 with a one-line stderr diagnostic, but
stdout is not free of generated output: the `#include` prelude lines of the
generated translation unit (printed by the loop at lines 132-133 of
`main.py`, before the database is read) are already on stdout. -/
theorem fatal_config_path_leaks_stdout :
    main_prefix { argv := ["main.py", "cc.json", "a.c"], resolvedDbPath := "/w/cc.json",
                  dbRead := .error "boom" }
      = .fatal 1 ["#include \"a.c\""] ["Error reading /w/cc.json: boom"] ∧
    (["#include \"a.c\""] : List String) ≠ [] :=
  ⟨rfl, by decide⟩

/-- C9 (amended): on each modelled fatal path `main` prints exactly one
diagnostic line to stderr and returns the non-zero exit code 1; stdout is
empty on the usage-error path, but on the configuration-failure path
(unreadable compilation database) stdout already carries one
`#include "<file>"` line per input file, emitted before the database read. -/
theorem fatal_paths_diagnostics (env : MainEnv) (c : Nat) (so se : List String)
    (h : main_prefix env = .fatal c so se) :
    c = 1 ∧ se.length = 1 ∧
    (env.argv.length < 3 → so = []) ∧
    (3 ≤ env.argv.length → so = includeLines env) := by
  unfold main_prefix at h
  by_cases hlen : env.argv.length < 3
  · rw [if_pos hlen] at h
    injection h with h1 h2 h3
    subst h1
    subst h2
    subst h3
    exact ⟨rfl, rfl, fun _ => rfl, fun h3 => absurd hlen (by omega)⟩
  · rw [if_neg hlen] at h
    cases hdb : env.dbRead with
    | error e =>
      rw [hdb] at h
      injection h with h1 h2 h3
      subst h1
      subst h2
      subst h3
      exact ⟨rfl, rfl, fun hl => absurd hl hlen, fun _ => rfl⟩
    | ok u =>
      rw [hdb] at h
      exact MainOutcome.noConfusion h

/-- The usage-error environment for the C9 witness: `main.py` invoked with no
arguments. -/
def envC9 : MainEnv :=
  { argv := ["main.py"], resolvedDbPath := "", dbRead := .ok () }

theorem fatal_paths_diagnostics_witness :
    (1 : Nat) = 1 ∧
    (["Usage: gen_allocators.py <compile_commands.json> <file1.c> [file2.c …]"] :
        List String).length = 1 ∧
    (envC9.argv.length < 3 → ([] : List String) = []) ∧
    (3 ≤ envC9.argv.length → ([] : List String) = includeLines envC9) :=
  fatal_paths_diagnostics envC9 1 []
    ["Usage: gen_allocators.py <compile_commands.json> <file1.c> [file2.c …]"] rfl

/-! ## Claim C10 -/

/-- C10: in the driver emitted by `generate_main_file`, a parameter whose
cleaned type contains `*` and whose sanitised type name is a key of
`pointer_to_struct` but not of `name_to_struct` falls through both branches
of the pointer case, so it receives no local declaration and no
initialisation line at all — yet its name is still appended to the argument
list and appears, at its position, in the emitted call expression. -/
theorem pointer_typedef_param_uninitialised_but_passed (nm pm : Dict)
    (varType varName : String)
    (hstar : containsSub "*".data (cleanType varType).data = true)
    (hpm : alistMem pm (clean_key (cleanType varType)) = true)
    (hnm : alistMem nm (clean_key (cleanType varType)) = false) :
    param_init_lines nm pm varType varName = [] ∧
    ∀ (funcName : String) (params : List (String × String)) (i : Nat),
      funcName ≠ "main" → params[i]? = some (varType, varName) →
      ("        " ++ funcName ++ "(" ++
          ", ".intercalate (params.map fun p => p.2) ++ ");")
        ∈ func_block nm pm funcName params ∧
      (params.map fun p => p.2)[i]? = some varName := by
  constructor
  · unfold param_init_lines
    dsimp only
    rw [if_pos hstar, if_neg (by simp [hnm]), if_neg (by simp [hpm])]
  · intro funcName params i hmain hparam
    constructor
    · unfold func_block
      rw [if_neg hmain]
      exact List.mem_cons_of_mem _ (List.mem_append_right _ (List.mem_cons_self _ _))
    · rw [List.getElem?_map, hparam]
      rfl

theorem pointer_typedef_param_uninitialised_but_passed_witness :
    param_init_lines [] [("pA", [("int", "k")])] "pA*" "x" = [] ∧
    (("        " ++ "f" ++ "(" ++
        ", ".intercalate ([("pA*", "x"), ("int", "n")].map fun p => p.2) ++ ");")
      ∈ func_block [] [("pA", [("int", "k")])] "f" [("pA*", "x"), ("int", "n")] ∧
    ([("pA*", "x"), ("int", "n")].map fun p => p.2)[0]? = some "x") := by
  have h := pointer_typedef_param_uninitialised_but_passed [] [("pA", [("int", "k")])]
    "pA*" "x" (by decide) (by decide) (by decide)
  exact ⟨h.1, h.2 "f" [("pA*", "x"), ("int", "n")] 0 (by decide) (by decide)⟩

end CParser
